import Mathlib

/-!
Shallow embedding of `src/kernels/rendering.ts` from damian-666/maxwell-simulation.

The source renders one visualization frame of a 2D electromagnetic field
simulation: a bounds-checked sampler `getAt`, a smoothstep helper
`nativeSmoothStep`, and two per-pixel shader variants `drawGpu`
(continuous fractional coordinates) and `drawCpu` (coordinates rounded
to the nearest integer before sampling).

JavaScript numbers are modelled as real numbers.  The JS-specific
primitives are embedded explicitly:
 * `Math.round` rounds half toward positive infinity: `jsRound x = ⌊x + 1/2⌋`;
 * the `%` operator is a truncated remainder (`jsMod`);
 * fractional array indices are truncated toward the stored index
   (`jsTrunc`), as the spec of the sampler states.
A 2D field (`number[][]`) is a `List (List ℝ)`; the possibly-failing
array access `field[y][x]` is the `Option`-valued `getEntry`, and
`fieldValue` is that access with JS `undefined` collapsed to a default.
Real division by zero in Lean yields `0` where IEEE arithmetic yields
`±Infinity`/`NaN`; the places where that matters are flagged at the
theorems concerned.
-/

/-- Truncation toward zero, as applied to a fractional JS array index. -/
noncomputable def jsTrunc (x : ℝ) : ℤ :=
  if 0 ≤ x then ⌊x⌋ else ⌈x⌉

/-- JS `%`: truncated remainder (sign of the dividend). -/
noncomputable def jsMod (a b : ℝ) : ℝ :=
  a - b * (jsTrunc (a / b) : ℝ)

/-- JS `Math.round`: round half toward positive infinity. -/
noncomputable def jsRound (x : ℝ) : ℤ :=
  ⌊x + 1 / 2⌋

/-- The raw 2D array access `field[y][x]`: `none` models the JS access
that would hit `undefined` (and crash on the further indexing). -/
def getEntry (field : List (List ℝ)) (iy ix : ℕ) : Option ℝ :=
  (field[iy]?).bind fun row => row[ix]?

/-- The stored value at a (truncated) index pair, with default `0` for
the out-of-list case (shown unreachable under well-formedness). -/
def fieldValue (field : List (List ℝ)) (iy ix : ℕ) : ℝ :=
  (getEntry field iy ix).getD 0

/-- `getAt` from rendering.ts: zero-fill outside `[0, shapeX) × [0, shapeY)`,
else the stored value `field[y][x]`. -/
noncomputable def getAt (field : List (List ℝ)) (shapeX shapeY x y : ℝ) : ℝ :=
  if x < 0 ∨ shapeX ≤ x ∨ y < 0 ∨ shapeY ≤ y then 0
  else fieldValue field (jsTrunc y).toNat (jsTrunc x).toNat

/-- `nativeSmoothStep` from rendering.ts:
`x <= 0 ? 0 : (x >= 1 ? 1 : 3x² − 2x³)`. -/
noncomputable def nativeSmoothStep (x : ℝ) : ℝ :=
  if x ≤ 0 then 0 else if 1 ≤ x then 1 else 3 * x * x - 2 * x * x * x

lemma nativeSmoothStep_nonneg (x : ℝ) : 0 ≤ nativeSmoothStep x := by
  unfold nativeSmoothStep
  split_ifs with h0 h1
  · exact le_refl 0
  · norm_num
  · have hx : 0 < x := lt_of_not_le h0
    have hx1 : x < 1 := lt_of_not_le h1
    nlinarith [mul_nonneg (mul_self_nonneg x) (show (0 : ℝ) ≤ 3 - 2 * x by linarith)]

lemma nativeSmoothStep_le_one (x : ℝ) : nativeSmoothStep x ≤ 1 := by
  unfold nativeSmoothStep
  split_ifs with h0 h1
  · norm_num
  · exact le_refl 1
  · have hx : 0 < x := lt_of_not_le h0
    have hx1 : x < 1 := lt_of_not_le h1
    nlinarith [mul_nonneg (mul_self_nonneg (1 - x)) (show (0 : ℝ) ≤ 1 + 2 * x by linarith)]

lemma nativeSmoothStep_pos {x : ℝ} (hx : 0 < x) : 0 < nativeSmoothStep x := by
  unfold nativeSmoothStep
  split_ifs with h0 h1
  · exact absurd hx (not_lt.mpr h0)
  · norm_num
  · have hx1 : x < 1 := lt_of_not_le h1
    nlinarith [mul_pos (mul_pos hx hx) (show (0 : ℝ) < 3 - 2 * x by linarith)]

/-- C7: the smoothstep helper returns 0 for t ≤ 0, 1 for t ≥ 1, equals
`3t² − 2t³` strictly inside `(0, 1)` (hence `smooth(1/2) = 1/2`), and is
monotone non-decreasing on `[0, 1]`. -/
theorem c7_smoothstep_spec :
    (∀ t : ℝ, t ≤ 0 → nativeSmoothStep t = 0) ∧
    (∀ t : ℝ, 1 ≤ t → nativeSmoothStep t = 1) ∧
    (∀ t : ℝ, 0 < t → t < 1 → nativeSmoothStep t = 3 * t * t - 2 * t * t * t) ∧
    nativeSmoothStep (1 / 2) = 1 / 2 ∧
    (∀ a b : ℝ, 0 ≤ a → a ≤ b → b ≤ 1 → nativeSmoothStep a ≤ nativeSmoothStep b) := by
  refine ⟨?_, ?_, ?_, ?_, ?_⟩
  · intro t ht
    simp [nativeSmoothStep, ht]
  · intro t ht
    have : ¬ t ≤ 0 := by linarith
    simp [nativeSmoothStep, this, ht]
  · intro t ht0 ht1
    have h0 : ¬ t ≤ 0 := by linarith
    have h1 : ¬ 1 ≤ t := by linarith
    simp [nativeSmoothStep, h0, h1]
  · norm_num [nativeSmoothStep]
  · intro a b ha hab hb1
    rcases le_or_lt a 0 with ha0 | ha0
    · have : nativeSmoothStep a = 0 := by simp [nativeSmoothStep, ha0]
      rw [this]
      exact nativeSmoothStep_nonneg b
    · rcases le_or_lt 1 b with hb1' | hb1'
      · have : nativeSmoothStep b = 1 := by
          have : ¬ b ≤ 0 := by linarith
          simp [nativeSmoothStep, this, hb1']
        rw [this]
        exact nativeSmoothStep_le_one a
      · have hna : ¬ a ≤ 0 := by linarith
        have hnb : ¬ b ≤ 0 := by linarith
        have hna1 : ¬ 1 ≤ a := by linarith
        have hnb1 : ¬ 1 ≤ b := by linarith
        simp only [nativeSmoothStep, hna, hnb, hna1, hnb1, if_false, if_neg]
        have h1 := mul_nonneg (sub_nonneg.mpr hab)
          (mul_nonneg ha (show (0 : ℝ) ≤ 1 - a by linarith))
        have h2 := mul_nonneg (sub_nonneg.mpr hab)
          (mul_nonneg (show (0 : ℝ) ≤ b by linarith) (show (0 : ℝ) ≤ 1 - b by linarith))
        have h3 := mul_nonneg (sub_nonneg.mpr hab)
          (mul_nonneg ha (show (0 : ℝ) ≤ 1 - b by linarith))
        have h4 := mul_nonneg (sub_nonneg.mpr hab)
          (mul_nonneg (show (0 : ℝ) ≤ b by linarith) (show (0 : ℝ) ≤ 1 - a by linarith))
        nlinarith [h1, h2, h3, h4]

/-- `const x = gx * this.thread.x / this.output.x` from both shaders. -/
noncomputable def pixelX (gx outW px : ℕ) : ℝ :=
  (gx : ℝ) * (px : ℝ) / (outW : ℝ)

/-- `const y = gy * (1 - this.thread.y / this.output.y)` from both shaders. -/
noncomputable def pixelY (gy outH py : ℕ) : ℝ :=
  (gy : ℝ) * (1 - (py : ℝ) / (outH : ℝ))

/-- `const fieldBrightness = (0.02 * 0.02) / (cellSize * cellSize)`. -/
noncomputable def fieldBrightness (cellSize : ℝ) : ℝ :=
  (0.02 * 0.02) / (cellSize * cellSize)

/-- The energy term `fieldBrightness * fieldBrightness * (vX*vX + vY*vY + vZ*vZ)`
used for both `eEnergy` and `mEnergy`, as a function of the sampled values. -/
noncomputable def fieldEnergy (cellSize vX vY vZ : ℝ) : ℝ :=
  fieldBrightness cellSize * fieldBrightness cellSize * (vX * vX + vY * vY + vZ * vZ)

/-- `min(1, 1 / Math.round(2 * g / out))`, the tile factor for one axis. -/
noncomputable def tileFactor (g out : ℕ) : ℝ :=
  min 1 (1 / ((jsRound (2 * (g : ℝ) / (out : ℝ))) : ℝ))

/-- The permittivity circle distance:
`dx = ((tfX * x) % 1) - 0.5`, `dy = ((tfY * y) % 1) - 0.5`,
`(dx*dx + dy*dy) * Math.sqrt(2 * Math.PI)`. -/
noncomputable def circleDistPermittivity (tfX tfY x y : ℝ) : ℝ :=
  let dx := jsMod (tfX * x) 1 - 0.5
  let dy := jsMod (tfY * y) 1 - 0.5
  (dx * dx + dy * dy) * Real.sqrt (2 * Real.pi)

/-- The permeability circle distance: same as the permittivity one but the
tile pattern is shifted by `+0.5` in both axes before the modulo. -/
noncomputable def circleDistPermeability (tfX tfY x y : ℝ) : ℝ :=
  let dx := jsMod (tfX * x + 0.5) 1 - 0.5
  let dy := jsMod (tfY * y + 0.5) 1 - 0.5
  (dx * dx + dy * dy) * Real.sqrt (2 * Real.pi)

/-- The logistic material map `2 / (1 + Math.exp(-0.5 * (v - 1))) - 1`,
inlined twice in each shader for permittivity and permeability. -/
noncomputable def materialMap (v : ℝ) : ℝ :=
  2 / (1 + Real.exp (-0.5 * (v - 1))) - 1

/-- The `eEnergy`/`mEnergy` lines: the energy term of one field triple
sampled at one coordinate, e.g.
`eEnergy = fieldBrightness² * (eX*eX + eY*eY + eZ*eZ)` with
`eX = getAt(electricFieldX, gx, gy, x, y)` etc. -/
noncomputable def energyAt (fX fY fZ : List (List ℝ)) (gx gy : ℕ)
    (cellSize x y : ℝ) : ℝ :=
  fieldEnergy cellSize (getAt fX gx gy x y) (getAt fY gx gy x y) (getAt fZ gx gy x y)

/-- The `backgroundPermittivity`/`backgroundPermeability` ternary:
`value >= 0.1 ? 1 + (-smooth dist) : (-smooth dist)`. -/
noncomputable def materialBackground (value dist : ℝ) : ℝ :=
  if 0.1 ≤ value then 1 + -nativeSmoothStep dist else -nativeSmoothStep dist

/-- `drawGpu` from rendering.ts (continuous-coordinate variant), as a pure
function from the nine fields, grid geometry, output raster size and pixel
coordinate to the `(red, green, blue)` triple passed to `this.color`.
The source's local constants are the named helper functions above
(`energyAt` bundles the three per-component samples with `fieldEnergy`,
`materialBackground` is the `>= 0.1` ternary applied to the negated
smoothstep of the circle distance). -/
noncomputable def drawGpuColor
    (electricFieldX electricFieldY electricFieldZ
     magneticFieldX magneticFieldY magneticFieldZ
     permittivity permeability conductivity : List (List ℝ))
    (gx gy : ℕ) (cellSize : ℝ) (outW outH px py : ℕ) : ℝ × ℝ × ℝ :=
  let x := pixelX gx outW px
  let y := pixelY gy outH py
  let eEnergy := energyAt electricFieldX electricFieldY electricFieldZ gx gy cellSize x y
  let mEnergy :=
    energyAt magneticFieldX magneticFieldY magneticFieldZ gx gy cellSize (x - 0.5) (y - 0.5)
  let permittivityValue := materialMap (getAt permittivity gx gy x y)
  let permeabilityValue := materialMap (getAt permeability gx gy x y)
  let backgroundPermittivity := materialBackground permittivityValue
    (circleDistPermittivity (tileFactor gx outW) (tileFactor gy outH) x y)
  let backgroundPermeability := materialBackground permeabilityValue
    (circleDistPermeability (tileFactor gx outW) (tileFactor gy outH) x y)
  let background := getAt conductivity gx gy x y / 2000
  (min 1 (background + eEnergy + 0.8 * backgroundPermittivity * permittivityValue),
   min 1 (background + eEnergy + mEnergy),
   min 1 (background + mEnergy + 0.8 * backgroundPermeability * permeabilityValue))

/-- `drawCpu` from rendering.ts (snapped variant): the grid coordinate is
rounded to the nearest integer immediately after the mapping; the magnetic
field is sampled at the rounded coordinate with no half-cell offset, while
the tiling pattern still uses the unrounded `fx, fy`. -/
noncomputable def drawCpuColor
    (electricFieldX electricFieldY electricFieldZ
     magneticFieldX magneticFieldY magneticFieldZ
     permittivity permeability conductivity : List (List ℝ))
    (gx gy : ℕ) (cellSize : ℝ) (outW outH px py : ℕ) : ℝ × ℝ × ℝ :=
  let fx := pixelX gx outW px
  let fy := pixelY gy outH py
  let x := ((jsRound fx : ℤ) : ℝ)
  let y := ((jsRound fy : ℤ) : ℝ)
  let eEnergy := energyAt electricFieldX electricFieldY electricFieldZ gx gy cellSize x y
  let mEnergy := energyAt magneticFieldX magneticFieldY magneticFieldZ gx gy cellSize x y
  let permittivityValue := materialMap (getAt permittivity gx gy x y)
  let permeabilityValue := materialMap (getAt permeability gx gy x y)
  let backgroundPermittivity := materialBackground permittivityValue
    (circleDistPermittivity (tileFactor gx outW) (tileFactor gy outH) fx fy)
  let backgroundPermeability := materialBackground permeabilityValue
    (circleDistPermeability (tileFactor gx outW) (tileFactor gy outH) fx fy)
  let background := getAt conductivity gx gy x y / 2000
  (min 1 (background + eEnergy + 0.8 * backgroundPermittivity * permittivityValue),
   min 1 (background + eEnergy + mEnergy),
   min 1 (background + mEnergy + 0.8 * backgroundPermeability * permeabilityValue))

lemma mem_of_getElem_some {α : Type} {l : List α} {i : ℕ} {a : α}
    (h : l[i]? = some a) : a ∈ l := by
  rcases lt_or_le i l.length with hi | hi
  · rw [List.getElem?_eq_getElem hi] at h
    cases h
    exact List.getElem_mem hi
  · rw [List.getElem?_eq_none hi] at h
    cases h

lemma getAt_in_bounds (field : List (List ℝ)) (sX sY : ℕ) (x y : ℝ)
    (hx0 : 0 ≤ x) (hx : x < sX) (hy0 : 0 ≤ y) (hy : y < sY) :
    getAt field sX sY x y = fieldValue field (⌊y⌋).toNat (⌊x⌋).toNat := by
  have hcond : ¬ (x < 0 ∨ (sX : ℝ) ≤ x ∨ y < 0 ∨ (sY : ℝ) ≤ y) := by
    push_neg
    exact ⟨hx0, hx, hy0, hy⟩
  unfold getAt
  rw [if_neg hcond]
  unfold jsTrunc
  rw [if_pos hx0, if_pos hy0]

lemma fieldValue_lookup (field : List (List ℝ)) (iy ix : ℕ)
    (hy : iy < field.length) (hx : ix < (field[iy]).length) :
    getEntry field iy ix = some ((field[iy])[ix]) := by
  unfold getEntry
  rw [List.getElem?_eq_getElem hy, Option.some_bind, List.getElem?_eq_getElem hx]

/-- C2: the sampler returns exactly 0 when the query coordinate is outside
`[0, shapeX) × [0, shapeY)`, and otherwise returns exactly the stored value
`field[y][x]` (at the truncated index); the row and entry lookups both
succeed, so no exception can be reached. -/
theorem c2_sampler_contract (field : List (List ℝ)) (sX sY : ℕ)
    (hlen : field.length = sY) (hrow : ∀ row ∈ field, row.length = sX)
    (x y : ℝ) :
    ((x < 0 ∨ (sX : ℝ) ≤ x ∨ y < 0 ∨ (sY : ℝ) ≤ y) → getAt field sX sY x y = 0) ∧
    (0 ≤ x → x < sX → 0 ≤ y → y < sY →
      ∃ row, field[(⌊y⌋).toNat]? = some row ∧
        row[(⌊x⌋).toNat]? = some (getAt field sX sY x y)) := by
  constructor
  · intro h
    unfold getAt
    rw [if_pos h]
  · intro hx0 hx hy0 hy
    have hfy : ⌊y⌋ < (sY : ℤ) := Int.floor_lt.mpr (by exact_mod_cast hy)
    have hfy0 : 0 ≤ ⌊y⌋ := Int.floor_nonneg.mpr hy0
    have hfx : ⌊x⌋ < (sX : ℤ) := Int.floor_lt.mpr (by exact_mod_cast hx)
    have hfx0 : 0 ≤ ⌊x⌋ := Int.floor_nonneg.mpr hx0
    have hyn : (⌊y⌋).toNat < field.length := by
      rw [hlen]; omega
    have hxn : (⌊x⌋).toNat < (field[(⌊y⌋).toNat]).length := by
      rw [hrow _ (List.getElem_mem hyn)]; omega
    refine ⟨field[(⌊y⌋).toNat], List.getElem?_eq_getElem hyn, ?_⟩
    rw [List.getElem?_eq_getElem hxn]
    rw [getAt_in_bounds field sX sY x y hx0 hx hy0 hy]
    unfold fieldValue
    rw [fieldValue_lookup field _ _ hyn hxn]
    rfl

theorem c2_sampler_contract_witness :
    (getAt [[5, 6], [7, 8]] 2 2 3 (1 / 2) = 0) ∧
    ∃ row, [[(5 : ℝ), 6], [7, 8]][(⌊(3 / 2 : ℝ)⌋).toNat]? = some row ∧
      row[(⌊(1 / 2 : ℝ)⌋).toNat]? = some (getAt [[5, 6], [7, 8]] 2 2 (1 / 2) (3 / 2)) :=
  ⟨(c2_sampler_contract [[5, 6], [7, 8]] 2 2 rfl
      (by intro row hr; simp only [List.mem_cons, List.not_mem_nil, or_false] at hr
          rcases hr with h | h <;> subst h <;> rfl) 3 (1 / 2)).1
      (by norm_num),
   (c2_sampler_contract [[5, 6], [7, 8]] 2 2 rfl
      (by intro row hr; simp only [List.mem_cons, List.not_mem_nil, or_false] at hr
          rcases hr with h | h <;> subst h <;> rfl) (1 / 2) (3 / 2)).2
      (by norm_num) (by norm_num) (by norm_num) (by norm_num)⟩

/-- C10: for a well-formed field (`shapeY` rows, each of length at least
`shapeX`) and integer coordinates, whenever the zero-fill guard does not
fire the underlying array access `field[y][x]` succeeds (`some`), i.e. the
`none` branch of the embedded lookup is unreachable and the sampler total. -/
theorem c10_inbounds_access_total (field : List (List ℝ)) (sX sY : ℕ)
    (hlen : field.length = sY) (hrow : ∀ row ∈ field, sX ≤ row.length)
    (x y : ℤ)
    (h : ¬ ((x : ℝ) < 0 ∨ (sX : ℝ) ≤ (x : ℝ) ∨ (y : ℝ) < 0 ∨ (sY : ℝ) ≤ (y : ℝ))) :
    ∃ v, getEntry field (jsTrunc (y : ℝ)).toNat (jsTrunc (x : ℝ)).toNat = some v ∧
      getAt field sX sY (x : ℝ) (y : ℝ) = v := by
  push_neg at h
  obtain ⟨hx0, hx, hy0, hy⟩ := h
  have hx0' : (0 : ℤ) ≤ x := by exact_mod_cast hx0
  have hy0' : (0 : ℤ) ≤ y := by exact_mod_cast hy0
  have hxs : x < (sX : ℤ) := by exact_mod_cast hx
  have hys : y < (sY : ℤ) := by exact_mod_cast hy
  have hjx : jsTrunc (x : ℝ) = x := by
    unfold jsTrunc
    rw [if_pos hx0, Int.floor_intCast]
  have hjy : jsTrunc (y : ℝ) = y := by
    unfold jsTrunc
    rw [if_pos hy0, Int.floor_intCast]
  have hyn : y.toNat < field.length := by
    rw [hlen]; omega
  have hxn : x.toNat < (field[y.toNat]).length := by
    have := hrow _ (List.getElem_mem hyn)
    omega
  refine ⟨(field[y.toNat])[x.toNat], ?_, ?_⟩
  · rw [hjx, hjy]
    exact fieldValue_lookup field _ _ hyn hxn
  · rw [getAt_in_bounds field sX sY _ _ hx0 hx hy0 hy]
    unfold fieldValue
    rw [Int.floor_intCast, Int.floor_intCast, fieldValue_lookup field _ _ hyn hxn]
    rfl

theorem c10_inbounds_access_total_witness :
    ∃ v, getEntry [[5]] (jsTrunc ((0 : ℤ) : ℝ)).toNat (jsTrunc ((0 : ℤ) : ℝ)).toNat = some v ∧
      getAt [[5]] ((1 : ℕ) : ℝ) ((1 : ℕ) : ℝ) ((0 : ℤ) : ℝ) ((0 : ℤ) : ℝ) = v :=
  c10_inbounds_access_total [[5]] 1 1 rfl
    (by intro row hr; simp only [List.mem_cons, List.not_mem_nil, or_false] at hr
        subst hr; norm_num) 0 0 (by norm_num)

lemma getAt_all_zero {field : List (List ℝ)}
    (h : ∀ row ∈ field, ∀ v ∈ row, v = 0) (sX sY x y : ℝ) :
    getAt field sX sY x y = 0 := by
  unfold getAt
  split
  · rfl
  · unfold fieldValue
    rcases hg : getEntry field (jsTrunc y).toNat (jsTrunc x).toNat with _ | v
    · rfl
    · have hv : v = 0 := by
        unfold getEntry at hg
        rcases hrow : field[(jsTrunc y).toNat]? with _ | row
        · rw [hrow] at hg
          cases hg
        · rw [hrow, Option.some_bind] at hg
          exact h row (mem_of_getElem_some hrow) v (mem_of_getElem_some hg)
      rw [hv]
      rfl

lemma fieldEnergy_zero (cellSize : ℝ) : fieldEnergy cellSize 0 0 0 = 0 := by
  unfold fieldEnergy
  ring

lemma energyAt_all_zero {f1 f2 f3 : List (List ℝ)}
    (h1 : ∀ row ∈ f1, ∀ v ∈ row, v = 0) (h2 : ∀ row ∈ f2, ∀ v ∈ row, v = 0)
    (h3 : ∀ row ∈ f3, ∀ v ∈ row, v = 0) (gx gy : ℕ) (cellSize x y : ℝ) :
    energyAt f1 f2 f3 gx gy cellSize x y = 0 := by
  unfold energyAt
  rw [getAt_all_zero h1, getAt_all_zero h2, getAt_all_zero h3]
  exact fieldEnergy_zero cellSize

lemma floor_half : ⌊(1 / 2 : ℝ)⌋ = 0 :=
  Int.floor_eq_iff.mpr (by norm_num)

/-- C1 (amended): each output channel of either shader variant is at most 1
(the `Math.min(1, ·)` upper clamp); no lower bound holds in general. -/
theorem c1_amended_upper_clamp
    (eFX eFY eFZ mFX mFY mFZ pf pb cf : List (List ℝ))
    (gx gy : ℕ) (cellSize : ℝ) (outW outH px py : ℕ) :
    (drawGpuColor eFX eFY eFZ mFX mFY mFZ pf pb cf gx gy cellSize outW outH px py).1 ≤ 1 ∧
    (drawGpuColor eFX eFY eFZ mFX mFY mFZ pf pb cf gx gy cellSize outW outH px py).2.1 ≤ 1 ∧
    (drawGpuColor eFX eFY eFZ mFX mFY mFZ pf pb cf gx gy cellSize outW outH px py).2.2 ≤ 1 ∧
    (drawCpuColor eFX eFY eFZ mFX mFY mFZ pf pb cf gx gy cellSize outW outH px py).1 ≤ 1 ∧
    (drawCpuColor eFX eFY eFZ mFX mFY mFZ pf pb cf gx gy cellSize outW outH px py).2.1 ≤ 1 ∧
    (drawCpuColor eFX eFY eFZ mFX mFY mFZ pf pb cf gx gy cellSize outW outH px py).2.2 ≤ 1 := by
  exact ⟨min_le_left _ _, min_le_left _ _, min_le_left _ _,
    min_le_left _ _, min_le_left _ _, min_le_left _ _⟩

/-- C1 counterexample: the claim that every channel lies in `[0, 1]` fails:
with conductivity uniformly −2000 and all other fields zero, the green
channel of the continuous variant at pixel (0, 1) of a 1×2 raster over a
1×1 grid with cellSize 0.02 is −1 < 0 (the code has no lower clamp). -/
theorem c1_counterexample :
    (drawGpuColor [[0]] [[0]] [[0]] [[0]] [[0]] [[0]] [[0]] [[0]] [[-2000]]
      1 1 0.02 1 2 0 1).2.1 < 0 := by
  have hx : pixelX 1 1 0 = 0 := by
    unfold pixelX
    norm_num
  have hy : pixelY 1 2 1 = 1 / 2 := by
    unfold pixelY
    norm_num
  have hz : ∀ row ∈ ([[0]] : List (List ℝ)), ∀ v ∈ row, v = 0 := by
    intro row hr v hv
    simp only [List.mem_cons, List.not_mem_nil, or_false] at hr
    subst hr
    simpa using hv
  have hcond : getAt [[-2000]] ((1 : ℕ) : ℝ) ((1 : ℕ) : ℝ) 0 (1 / 2) = -2000 := by
    rw [getAt_in_bounds [[-2000]] 1 1 0 (1 / 2) le_rfl (by norm_num) (by norm_num)
      (by norm_num)]
    rw [floor_half, Int.floor_zero]
    rfl
  simp only [drawGpuColor, hx, hy]
  rw [hcond]
  simp only [energyAt_all_zero hz hz hz]
  have : (1 : ℝ) ⊓ (-2000 / 2000 + 0 + 0) = -1 := by
    rw [min_eq_right (by norm_num : (-2000 / 2000 + 0 + 0 : ℝ) ≤ 1)]
    norm_num
  rw [this]
  norm_num

/-- C9: the green channel of either shader variant does not depend on the
permittivity and permeability fields: replacing them by arbitrary other
fields leaves the green component unchanged. -/
theorem c9_green_independent_of_materials
    (eFX eFY eFZ mFX mFY mFZ pf pb pf' pb' cf : List (List ℝ))
    (gx gy : ℕ) (cellSize : ℝ) (outW outH px py : ℕ) :
    (drawGpuColor eFX eFY eFZ mFX mFY mFZ pf pb cf gx gy cellSize outW outH px py).2.1 =
      (drawGpuColor eFX eFY eFZ mFX mFY mFZ pf' pb' cf gx gy cellSize outW outH px py).2.1 ∧
    (drawCpuColor eFX eFY eFZ mFX mFY mFZ pf pb cf gx gy cellSize outW outH px py).2.1 =
      (drawCpuColor eFX eFY eFZ mFX mFY mFZ pf' pb' cf gx gy cellSize outW outH px py).2.1 := by
  constructor <;> simp only [drawGpuColor, drawCpuColor]

/-- C6: replacing `cellSize` by `k * cellSize` (k > 0) scales the electric
and magnetic energy terms by exactly `1/k⁴`, for identical sampled field
values (since `fieldBrightness ∝ 1/cellSize²` enters squared). -/
theorem c6_energy_scaling (c k eX eY eZ mX mY mZ : ℝ) (hc : 0 < c) (hk : 0 < k) :
    fieldEnergy (k * c) eX eY eZ = 1 / k ^ 4 * fieldEnergy c eX eY eZ ∧
    fieldEnergy (k * c) mX mY mZ = 1 / k ^ 4 * fieldEnergy c mX mY mZ := by
  constructor <;>
  · unfold fieldEnergy fieldBrightness
    rw [show (k * c) * (k * c) = (k ^ 2) * (c * c) by ring, ← div_div]
    ring

theorem c6_energy_scaling_witness :
    0 < (1 / 50 : ℝ) ∧ 0 < (2 : ℝ) ∧
    (fieldEnergy (2 * (1 / 50)) 1 0 0 = 1 / 2 ^ 4 * fieldEnergy (1 / 50) 1 0 0 ∧
     fieldEnergy (2 * (1 / 50)) 0 1 0 = 1 / 2 ^ 4 * fieldEnergy (1 / 50) 0 1 0) :=
  ⟨by norm_num, by norm_num,
   c6_energy_scaling (1 / 50) 2 1 0 0 0 1 0 (by norm_num) (by norm_num)⟩

/-- C8: at a raster resolution equal to the grid size, the snapped variant's
rounded coordinate reproduces direct integer indexing:
`round(gx·px/outputWidth) = px` for `0 ≤ px < gx` (and for the y coordinate,
`round(gy·(1 − py/outputHeight)) = gy − py`), so the sampler is queried at
exactly those integer coordinates. -/
theorem c8_snapped_reproduces_indexing (gx gy px py : ℕ)
    (hgx : 0 < gx) (hpx : px < gx) (hgy : 0 < gy) (hpy : py < gy) :
    jsRound (pixelX gx gx px) = (px : ℤ) ∧
    jsRound (pixelY gy gy py) = (gy : ℤ) - (py : ℤ) ∧
    ∀ field : List (List ℝ),
      getAt field gx gy ((jsRound (pixelX gx gx px) : ℤ) : ℝ)
          ((jsRound (pixelY gy gy py) : ℤ) : ℝ) =
        getAt field gx gy ((px : ℕ) : ℝ) ((gy : ℝ) - (py : ℝ)) := by
  have hgx' : (gx : ℝ) ≠ 0 := Nat.cast_ne_zero.mpr hgx.ne'
  have hgy' : (gy : ℝ) ≠ 0 := Nat.cast_ne_zero.mpr hgy.ne'
  have h1 : pixelX gx gx px = (px : ℝ) := by
    unfold pixelX
    rw [mul_comm, mul_div_assoc, div_self hgx', mul_one]
  have h2 : pixelY gy gy py = (gy : ℝ) - (py : ℝ) := by
    unfold pixelY
    field_simp
  have h3 : jsRound ((px : ℕ) : ℝ) = (px : ℤ) := by
    unfold jsRound
    rw [Int.floor_eq_iff]
    constructor <;> push_cast <;> linarith
  have h4 : jsRound ((gy : ℝ) - (py : ℝ)) = (gy : ℤ) - (py : ℤ) := by
    unfold jsRound
    rw [Int.floor_eq_iff]
    constructor <;> push_cast <;> linarith
  refine ⟨by rw [h1]; exact h3, by rw [h2]; exact h4, ?_⟩
  intro field
  rw [h1, h2, h3, h4]
  push_cast
  rfl

theorem c8_snapped_reproduces_indexing_witness :
    jsRound (pixelX 2 2 1) = (1 : ℤ) ∧
    jsRound (pixelY 2 2 1) = (2 : ℤ) - (1 : ℤ) ∧
    ∀ field : List (List ℝ),
      getAt field 2 2 ((jsRound (pixelX 2 2 1) : ℤ) : ℝ)
          ((jsRound (pixelY 2 2 1) : ℤ) : ℝ) =
        getAt field 2 2 (((1 : ℕ)) : ℝ) (((2 : ℕ) : ℝ) - ((1 : ℕ) : ℝ)) :=
  c8_snapped_reproduces_indexing 2 2 1 1 (by norm_num) (by norm_num)
    (by norm_num) (by norm_num)

lemma jsRound_eval {r : ℝ} {z : ℤ} (h1 : (z : ℝ) ≤ r + 1 / 2)
    (h2 : r + 1 / 2 < z + 1) : jsRound r = z := by
  unfold jsRound
  exact Int.floor_eq_iff.mpr ⟨h1, h2⟩

lemma jsMod_one_eval {r : ℝ} {z : ℤ} (h0 : 0 ≤ r) (h1 : (z : ℝ) ≤ r)
    (h2 : r < z + 1) : jsMod r 1 = r - z := by
  unfold jsMod jsTrunc
  rw [div_one, if_pos h0, Int.floor_eq_iff.mpr ⟨h1, h2⟩]
  ring

lemma min_one_eq {X Y : ℝ} (h1 : X = Y) (h2 : Y ≤ 1) : min 1 X = Y := by
  rw [h1]
  exact min_eq_right h2

lemma materialMap_zero_eq : materialMap 0 = 2 / (1 + Real.exp 0.5) - 1 := by
  unfold materialMap
  norm_num

lemma materialMap_zero_neg : materialMap 0 < 0 := by
  rw [materialMap_zero_eq]
  have h := Real.add_one_le_exp (0.5 : ℝ)
  have hpos : (0 : ℝ) < 1 + Real.exp 0.5 := by positivity
  rw [sub_neg, div_lt_one hpos]
  linarith

lemma zeroBackground_le_one (d : ℝ) :
    0.8 * nativeSmoothStep d * (1 - 2 / (1 + Real.exp 0.5)) ≤ 1 := by
  have hs0 := nativeSmoothStep_nonneg d
  have hs1 := nativeSmoothStep_le_one d
  have hpos : (0 : ℝ) < 1 + Real.exp 0.5 := by positivity
  have hfrac0 : 0 < 2 / (1 + Real.exp 0.5) := by positivity
  have hfrac1 : 2 / (1 + Real.exp 0.5) < 1 := by
    rw [div_lt_one hpos]
    have := Real.add_one_le_exp (0.5 : ℝ)
    linarith
  nlinarith [mul_le_one₀ hs1 (by linarith : (0 : ℝ) ≤ 1 - 2 / (1 + Real.exp 0.5))
    (by linarith : 1 - 2 / (1 + Real.exp 0.5) ≤ 1)]

/-- With all nine fields all-zero, the continuous shader's pixel color is
`(0.8·smooth(distP)·(1 − 2/(1+exp ½)), 0, 0.8·smooth(distM)·(1 − 2/(1+exp ½)))`:
the green channel is 0 but red and blue carry the circle-pattern ghost
produced by the material value 0 (which the logistic map sends below 0). -/
lemma drawGpu_all_zero
    (f1 f2 f3 f4 f5 f6 f7 f8 f9 : List (List ℝ))
    (h1 : ∀ row ∈ f1, ∀ v ∈ row, v = 0) (h2 : ∀ row ∈ f2, ∀ v ∈ row, v = 0)
    (h3 : ∀ row ∈ f3, ∀ v ∈ row, v = 0) (h4 : ∀ row ∈ f4, ∀ v ∈ row, v = 0)
    (h5 : ∀ row ∈ f5, ∀ v ∈ row, v = 0) (h6 : ∀ row ∈ f6, ∀ v ∈ row, v = 0)
    (h7 : ∀ row ∈ f7, ∀ v ∈ row, v = 0) (h8 : ∀ row ∈ f8, ∀ v ∈ row, v = 0)
    (h9 : ∀ row ∈ f9, ∀ v ∈ row, v = 0)
    (gx gy : ℕ) (cellSize : ℝ) (outW outH px py : ℕ) :
    drawGpuColor f1 f2 f3 f4 f5 f6 f7 f8 f9 gx gy cellSize outW outH px py =
      (0.8 * nativeSmoothStep (circleDistPermittivity (tileFactor gx outW)
          (tileFactor gy outH) (pixelX gx outW px) (pixelY gy outH py)) *
          (1 - 2 / (1 + Real.exp 0.5)),
       0,
       0.8 * nativeSmoothStep (circleDistPermeability (tileFactor gx outW)
          (tileFactor gy outH) (pixelX gx outW px) (pixelY gy outH py)) *
          (1 - 2 / (1 + Real.exp 0.5))) := by
  have hni : ¬ ((0.1 : ℝ) ≤ materialMap 0) :=
    not_le.mpr (lt_trans materialMap_zero_neg (by norm_num))
  simp only [drawGpuColor, energyAt_all_zero h1 h2 h3, energyAt_all_zero h4 h5 h6,
    getAt_all_zero h7, getAt_all_zero h8, getAt_all_zero h9, materialBackground,
    hni, ite_false, Prod.mk.injEq]
  refine ⟨?_, ?_, ?_⟩
  · exact min_one_eq (by rw [materialMap_zero_eq]; ring) (zeroBackground_le_one _)
  · exact min_one_eq (by ring) (by norm_num)
  · exact min_one_eq (by rw [materialMap_zero_eq]; ring) (zeroBackground_le_one _)

/-- Snapped-variant companion of `drawGpu_all_zero`: the tiling pattern uses
the unrounded coordinates, so the resulting color is the same expression. -/
lemma drawCpu_all_zero
    (f1 f2 f3 f4 f5 f6 f7 f8 f9 : List (List ℝ))
    (h1 : ∀ row ∈ f1, ∀ v ∈ row, v = 0) (h2 : ∀ row ∈ f2, ∀ v ∈ row, v = 0)
    (h3 : ∀ row ∈ f3, ∀ v ∈ row, v = 0) (h4 : ∀ row ∈ f4, ∀ v ∈ row, v = 0)
    (h5 : ∀ row ∈ f5, ∀ v ∈ row, v = 0) (h6 : ∀ row ∈ f6, ∀ v ∈ row, v = 0)
    (h7 : ∀ row ∈ f7, ∀ v ∈ row, v = 0) (h8 : ∀ row ∈ f8, ∀ v ∈ row, v = 0)
    (h9 : ∀ row ∈ f9, ∀ v ∈ row, v = 0)
    (gx gy : ℕ) (cellSize : ℝ) (outW outH px py : ℕ) :
    drawCpuColor f1 f2 f3 f4 f5 f6 f7 f8 f9 gx gy cellSize outW outH px py =
      (0.8 * nativeSmoothStep (circleDistPermittivity (tileFactor gx outW)
          (tileFactor gy outH) (pixelX gx outW px) (pixelY gy outH py)) *
          (1 - 2 / (1 + Real.exp 0.5)),
       0,
       0.8 * nativeSmoothStep (circleDistPermeability (tileFactor gx outW)
          (tileFactor gy outH) (pixelX gx outW px) (pixelY gy outH py)) *
          (1 - 2 / (1 + Real.exp 0.5))) := by
  have hni : ¬ ((0.1 : ℝ) ≤ materialMap 0) :=
    not_le.mpr (lt_trans materialMap_zero_neg (by norm_num))
  simp only [drawCpuColor, energyAt_all_zero h1 h2 h3, energyAt_all_zero h4 h5 h6,
    getAt_all_zero h7, getAt_all_zero h8, getAt_all_zero h9, materialBackground,
    hni, ite_false, Prod.mk.injEq]
  refine ⟨?_, ?_, ?_⟩
  · exact min_one_eq (by rw [materialMap_zero_eq]; ring) (zeroBackground_le_one _)
  · exact min_one_eq (by ring) (by norm_num)
  · exact min_one_eq (by rw [materialMap_zero_eq]; ring) (zeroBackground_le_one _)

lemma allZero_2x2 : ∀ row ∈ ([[0, 0], [0, 0]] : List (List ℝ)), ∀ v ∈ row, v = 0 := by
  intro row hr v hv
  fin_cases hr <;> fin_cases hv <;> rfl

/-- C3 counterexample: with every entry of all nine fields equal to 0 on a
2×2 grid rendered to an 8×8 raster, the red channel of the continuous
variant at pixel (1, 1) is strictly positive, not 0: the material value 0
maps to `2/(1+exp ½) − 1 < 0`, whose product with the negated circle mask
is positive. -/
theorem c3_counterexample :
    0 < (drawGpuColor [[0, 0], [0, 0]] [[0, 0], [0, 0]] [[0, 0], [0, 0]]
      [[0, 0], [0, 0]] [[0, 0], [0, 0]] [[0, 0], [0, 0]] [[0, 0], [0, 0]]
      [[0, 0], [0, 0]] [[0, 0], [0, 0]] 2 2 0.02 8 8 1 1).1 := by
  rw [drawGpu_all_zero _ _ _ _ _ _ _ _ _ allZero_2x2 allZero_2x2 allZero_2x2
    allZero_2x2 allZero_2x2 allZero_2x2 allZero_2x2 allZero_2x2 allZero_2x2
    2 2 0.02 8 8 1 1]
  have hx : pixelX 2 8 1 = 1 / 4 := by
    unfold pixelX
    norm_num
  have hy : pixelY 2 8 1 = 7 / 4 := by
    unfold pixelY
    norm_num
  have htf : tileFactor 2 8 = 1 := by
    unfold tileFactor
    rw [show jsRound (2 * ((2 : ℕ) : ℝ) / ((8 : ℕ) : ℝ)) = 1 from
      jsRound_eval (by push_cast; norm_num) (by push_cast; norm_num)]
    norm_num
  have hdist : 0 < circleDistPermittivity 1 1 (1 / 4) (7 / 4) := by
    simp only [circleDistPermittivity]
    rw [show jsMod (1 * (1 / 4 : ℝ)) 1 = 1 * (1 / 4) - ((0 : ℤ) : ℝ) from
        jsMod_one_eval (by norm_num) (by push_cast; norm_num) (by push_cast; norm_num),
      show jsMod (1 * (7 / 4 : ℝ)) 1 = 1 * (7 / 4) - ((1 : ℤ) : ℝ) from
        jsMod_one_eval (by norm_num) (by push_cast; norm_num) (by push_cast; norm_num)]
    have hsqrt : 0 < Real.sqrt (2 * Real.pi) :=
      Real.sqrt_pos.mpr (by positivity)
    apply mul_pos _ hsqrt
    push_cast
    norm_num
  rw [hx, hy, htf]
  have hs : 0 < nativeSmoothStep (circleDistPermittivity 1 1 (1 / 4) (7 / 4)) :=
    nativeSmoothStep_pos hdist
  have hfrac1 : 2 / (1 + Real.exp 0.5) < 1 := by
    have := Real.add_one_le_exp (0.5 : ℝ)
    rw [div_lt_one (by positivity)]
    linarith
  nlinarith [mul_pos hs (show (0 : ℝ) < 1 - 2 / (1 + Real.exp 0.5) by linarith)]

/-- C3 (amended): with every entry of all nine fields equal to 0, every
pixel of either shader variant has green = 0, while red and blue equal
`0.8 · smooth(dist) · (1 − 2/(1+exp ½))` for their respective circle
patterns — non-negative, and zero only where the circle mask vanishes, not
at every pixel. -/
theorem c3_amended_all_zero_fields
    (f1 f2 f3 f4 f5 f6 f7 f8 f9 : List (List ℝ))
    (h1 : ∀ row ∈ f1, ∀ v ∈ row, v = 0) (h2 : ∀ row ∈ f2, ∀ v ∈ row, v = 0)
    (h3 : ∀ row ∈ f3, ∀ v ∈ row, v = 0) (h4 : ∀ row ∈ f4, ∀ v ∈ row, v = 0)
    (h5 : ∀ row ∈ f5, ∀ v ∈ row, v = 0) (h6 : ∀ row ∈ f6, ∀ v ∈ row, v = 0)
    (h7 : ∀ row ∈ f7, ∀ v ∈ row, v = 0) (h8 : ∀ row ∈ f8, ∀ v ∈ row, v = 0)
    (h9 : ∀ row ∈ f9, ∀ v ∈ row, v = 0)
    (gx gy : ℕ) (cellSize : ℝ) (outW outH px py : ℕ) :
    (drawGpuColor f1 f2 f3 f4 f5 f6 f7 f8 f9 gx gy cellSize outW outH px py).2.1 = 0 ∧
    (drawCpuColor f1 f2 f3 f4 f5 f6 f7 f8 f9 gx gy cellSize outW outH px py).2.1 = 0 ∧
    (drawGpuColor f1 f2 f3 f4 f5 f6 f7 f8 f9 gx gy cellSize outW outH px py).1 =
      0.8 * nativeSmoothStep (circleDistPermittivity (tileFactor gx outW)
        (tileFactor gy outH) (pixelX gx outW px) (pixelY gy outH py)) *
        (1 - 2 / (1 + Real.exp 0.5)) ∧
    (drawGpuColor f1 f2 f3 f4 f5 f6 f7 f8 f9 gx gy cellSize outW outH px py).2.2 =
      0.8 * nativeSmoothStep (circleDistPermeability (tileFactor gx outW)
        (tileFactor gy outH) (pixelX gx outW px) (pixelY gy outH py)) *
        (1 - 2 / (1 + Real.exp 0.5)) ∧
    (drawCpuColor f1 f2 f3 f4 f5 f6 f7 f8 f9 gx gy cellSize outW outH px py).1 =
      0.8 * nativeSmoothStep (circleDistPermittivity (tileFactor gx outW)
        (tileFactor gy outH) (pixelX gx outW px) (pixelY gy outH py)) *
        (1 - 2 / (1 + Real.exp 0.5)) ∧
    (drawCpuColor f1 f2 f3 f4 f5 f6 f7 f8 f9 gx gy cellSize outW outH px py).2.2 =
      0.8 * nativeSmoothStep (circleDistPermeability (tileFactor gx outW)
        (tileFactor gy outH) (pixelX gx outW px) (pixelY gy outH py)) *
        (1 - 2 / (1 + Real.exp 0.5)) := by
  have hg := drawGpu_all_zero f1 f2 f3 f4 f5 f6 f7 f8 f9 h1 h2 h3 h4 h5 h6 h7 h8 h9
    gx gy cellSize outW outH px py
  have hc := drawCpu_all_zero f1 f2 f3 f4 f5 f6 f7 f8 f9 h1 h2 h3 h4 h5 h6 h7 h8 h9
    gx gy cellSize outW outH px py
  exact ⟨by rw [hg], by rw [hc], by rw [hg], by rw [hg], by rw [hc], by rw [hc]⟩

theorem c3_amended_all_zero_fields_witness :
    (drawGpuColor [[0, 0], [0, 0]] [[0, 0], [0, 0]] [[0, 0], [0, 0]]
      [[0, 0], [0, 0]] [[0, 0], [0, 0]] [[0, 0], [0, 0]] [[0, 0], [0, 0]]
      [[0, 0], [0, 0]] [[0, 0], [0, 0]] 2 2 0.02 8 8 1 1).2.1 = 0 ∧
    (drawCpuColor [[0, 0], [0, 0]] [[0, 0], [0, 0]] [[0, 0], [0, 0]]
      [[0, 0], [0, 0]] [[0, 0], [0, 0]] [[0, 0], [0, 0]] [[0, 0], [0, 0]]
      [[0, 0], [0, 0]] [[0, 0], [0, 0]] 2 2 0.02 8 8 1 1).2.1 = 0 :=
  ⟨(c3_amended_all_zero_fields [[0, 0], [0, 0]] [[0, 0], [0, 0]] [[0, 0], [0, 0]]
      [[0, 0], [0, 0]] [[0, 0], [0, 0]] [[0, 0], [0, 0]] [[0, 0], [0, 0]]
      [[0, 0], [0, 0]] [[0, 0], [0, 0]] allZero_2x2 allZero_2x2 allZero_2x2
      allZero_2x2 allZero_2x2 allZero_2x2 allZero_2x2 allZero_2x2 allZero_2x2
      2 2 0.02 8 8 1 1).1,
   (c3_amended_all_zero_fields [[0, 0], [0, 0]] [[0, 0], [0, 0]] [[0, 0], [0, 0]]
      [[0, 0], [0, 0]] [[0, 0], [0, 0]] [[0, 0], [0, 0]] [[0, 0], [0, 0]]
      [[0, 0], [0, 0]] [[0, 0], [0, 0]] allZero_2x2 allZero_2x2 allZero_2x2
      allZero_2x2 allZero_2x2 allZero_2x2 allZero_2x2 allZero_2x2 allZero_2x2
      2 2 0.02 8 8 1 1).2.1⟩

/-- C4 evidence: the shaders contain no precondition check and no error
path — the embedding is a total function, and at `cellSize = 0` it still
computes a pixel color (here the green channel of the snapped variant on a
1×1 grid of zero fields).  In the real-valued embedding division by zero
yields 0, so the value is finite; in the JS source the same input silently
yields `Infinity`/`NaN` channel values.  Either way, no descriptive
precondition error is raised, contradicting the claim. -/
theorem c4_no_precondition_error :
    (drawCpuColor [[0]] [[0]] [[0]] [[0]] [[0]] [[0]] [[0]] [[0]] [[0]]
      1 1 0 1 1 0 0).2.1 = 0 := by
  have hz : ∀ row ∈ ([[0]] : List (List ℝ)), ∀ v ∈ row, v = 0 := by
    intro row hr v hv
    fin_cases hr <;> fin_cases hv <;> rfl
  rw [drawCpu_all_zero _ _ _ _ _ _ _ _ _ hz hz hz hz hz hz hz hz hz 1 1 0 1 1 0 0]

theorem c7_smoothstep_spec_witness :
    nativeSmoothStep (-1) = 0 ∧ nativeSmoothStep 2 = 1 ∧
    nativeSmoothStep (1 / 2) = 1 / 2 ∧
    nativeSmoothStep (1 / 4) ≤ nativeSmoothStep (3 / 4) :=
  ⟨c7_smoothstep_spec.1 (-1) (by norm_num),
   c7_smoothstep_spec.2.1 2 (by norm_num),
   c7_smoothstep_spec.2.2.2.1,
   c7_smoothstep_spec.2.2.2.2 (1 / 4) (3 / 4) (by norm_num) (by norm_num) (by norm_num)⟩
